import Mathlib

/-!
Verification of the `express-sequelize-crud` route-set generator
(`src/index.ts`) against its natural-language specification.

The embedding models the five CRUD handlers, route registration, and the
CORS header-normalization middleware.  JavaScript strings are modelled as
`List Char`; JavaScript values that may flow through `res.getHeader` are
modelled by the inductive `JValue` (undefined, string, number, array),
with JavaScript truthiness made explicit.
-/

set_option autoImplicit false

namespace Crud

/-! ### JavaScript value model for header values -/

/-- Values `res.getHeader` can return: `undefined`, a string, a number,
or an array of strings. -/
inductive JValue : Type
  | undef : JValue
  | str : List Char → JValue
  | num : Int → JValue
  | arr : List (List Char) → JValue
  deriving DecidableEq, Repr

/-- JavaScript truthiness: `undefined` and `0` and `""` are falsy; every
array (including the empty array) is truthy. -/
def JValue.truthy : JValue → Bool
  | .undef => false
  | .str s => !s.isEmpty
  | .num n => n != 0
  | .arr _ => true

/-- Embeds `res.getHeader(name) || ""`. -/
def jsOrEmptyStr (v : JValue) : JValue :=
  if v.truthy then v else .str []

/-! ### Header normalization (`appendHeaders`) -/

/-- Whitespace characters removed by `String.prototype.trim` (the ASCII
ones that can occur in header values). -/
def isWS (c : Char) : Bool :=
  c = ' ' || c = '\t' || c = '\n' || c = '\r'

/-- Embeds `rawValue.split(",")`: splitting never yields `[]`; the empty
string splits to `[""]`. -/
def splitOnComma : List Char → List (List Char)
  | [] => [[]]
  | c :: cs =>
    if c = ',' then [] :: splitOnComma cs
    else
      match splitOnComma cs with
      | [] => [[c]]
      | h :: t => (c :: h) :: t

/-- Removes trailing whitespace. -/
def dropTrailWS : List Char → List Char
  | [] => []
  | c :: cs =>
    match dropTrailWS cs with
    | [] => if isWS c then [] else [c]
    | r => c :: r

/-- Embeds `header.trim()`. -/
def trimChars (l : List Char) : List Char :=
  dropTrailWS (l.dropWhile isWS)

/-- Embeds `headers.join(", ")`. -/
def joinCommaSpace : List (List Char) → List Char
  | [] => []
  | [x] => x
  | x :: xs => x ++ ',' :: ' ' :: joinCommaSpace xs

/-- The characters of `"Content-Range"`. -/
def crChars : List Char := "Content-Range".data

/-- Embeds `rawValue.split(",").map(header => header.trim())`. -/
def entriesOf (s : List Char) : List (List Char) :=
  (splitOnComma s).map trimChars

/-- Embeds `if (!headers.includes("Content-Range")) headers.push(...)`. -/
def withCR (es : List (List Char)) : List (List Char) :=
  if crChars ∈ es then es else es ++ [crChars]

/-- One header's pass of `appendHeaders`, applied to a string value
already known to be a string after the `|| ""` coercion. -/
def normalize (s : List Char) : List Char :=
  joinCommaSpace (withCR (entriesOf s))

/-- Embeds the `appendHeaders` middleware on the pair
(`Access-Control-Expose-Headers`, `Access-Control-Allow-Headers`) of
existing response-header values.  The loop visits the expose header
first; a non-string value (after `|| ""`) triggers `return next()`,
which abandons the rest of the loop. -/
def appendHeaders (e a : JValue) : JValue × JValue :=
  match jsOrEmptyStr e with
  | .str s =>
    match jsOrEmptyStr a with
    | .str t => (.str (normalize s), .str (normalize t))
    | _ => (.str (normalize s), a)
  | _ => (e, a)

/-- The middleware as a function on the header pair. -/
def appendHeadersPair (p : JValue × JValue) : JValue × JValue :=
  appendHeaders p.1 p.2

/-! ### Route registration (`crud`) -/

/-- The string values of the `ActionType` enum, in declaration order —
exactly `Object.values(ActionType)`. -/
def actionTypeValues : List String :=
  ["GET_LIST", "GET_ONE", "CREATE", "UPDATE", "DELETE"]

/-- Embeds `(options && options.actionTypes) || Object.values(ActionType)`.
In JavaScript every array value is truthy — including the empty array —
so only an absent (`undefined`) option falls back to the default list. -/
def resolveActionTypes : Option (List String) → List String
  | none => actionTypeValues
  | some l => l

/-- One registered route: HTTP method, path pattern, and the handler
identified by its action type. -/
structure Route : Type where
  method : String
  path : String
  action : String
  deriving DecidableEq, Repr

/-- One arm of the `switch` in the registration loop; the `default`
branch throws `Unknown action type ...`. -/
def routeFor (resource : String) (a : String) : Except String Route :=
  if a = "GET_LIST" then .ok ⟨"get", resource, a⟩
  else if a = "GET_ONE" then .ok ⟨"get", resource ++ "/:id", a⟩
  else if a = "CREATE" then .ok ⟨"post", resource, a⟩
  else if a = "UPDATE" then .ok ⟨"put", resource ++ "/:id", a⟩
  else if a = "DELETE" then .ok ⟨"delete", resource ++ "/:id", a⟩
  else .error ("Unknown action type " ++ a)

/-- The registration loop: a thrown error propagates out of `crud`, so
the caller never receives the router. -/
def registerRoutes (resource : String) : List String → Except String (List Route)
  | [] => .ok []
  | a :: rest => do
    let r ← routeFor resource a
    let rs ← registerRoutes resource rest
    pure (r :: rs)

/-- Embeds `crud`: resolves the `actionTypes` option (the argument is
`options?.actionTypes`) and registers the routes, or throws. -/
def crud (resource : String) (actionTypes : Option (List String)) :
    Except String (List Route) :=
  registerRoutes resource (resolveActionTypes actionTypes)

/-! ### Response model shared by the handlers -/

/-- A JSON response body: a (hook-transformed) record or record list, the
fixed error object, or the `{id}` object sent by `destroy`. -/
inductive Body (α : Type) : Type
  | record : α → Body α
  | error : String → Body α
  | idObj : String → Body α
  deriving DecidableEq, Repr

/-- An HTTP response: status code (200 is the `res.json` default) and
JSON body. -/
structure Response (α : Type) : Type where
  status : Nat
  body : Body α
  deriving DecidableEq, Repr

/-! ### List handler (`getList`) -/

/-- The argument object the list handler passes to
`model.findAndCountAll`. -/
structure FindQuery : Type where
  offset : Int
  limit : Int
  order : String × String
  whereFilter : List (String × String)
  deriving DecidableEq, Repr

/-- The observable outcome of the list handler: the query it issued, the
`Content-Range` header it set, and the JSON body. -/
structure ListOutcome (α : Type) : Type where
  query : FindQuery
  contentRange : String
  body : α
  deriving Repr

/-- Embeds `getList`.  `db` is `model.findAndCountAll`, returning
`{count, rows}`; `afterHook` is the `afterGetList` hook.  The query
parameters are the already-JSON-parsed `range`, `sort` and `filter`,
`none` when omitted. -/
def getList {ρ α : Type} (db : FindQuery → Int × List ρ)
    (afterHook : List ρ → α) (range : Option (Int × Int))
    (sort : Option (String × String))
    (filter : Option (List (String × String))) : ListOutcome α :=
  let p := range.getD (0, 100)
  let q : FindQuery :=
    { offset := p.1
      limit := p.2 - p.1 + 1
      order := sort.getD ("id", "ASC")
      whereFilter := filter.getD [] }
  let res := db q
  { query := q
    contentRange :=
      toString p.1 ++ "-" ++ toString (p.1 + (res.2.length : Int)) ++ "/" ++
        toString res.1
    body := afterHook res.2 }

/-! ### Get-one, create, update, destroy handlers -/

/-- Embeds `getOne`: `findByPk` is `model.findByPk`, `afterHook` the
`afterGetOne` hook, `id` the `:id` path parameter. -/
def getOne {ρ α : Type} (findByPk : String → Option ρ) (afterHook : ρ → α)
    (id : String) : Response α :=
  match findByPk id with
  | none => ⟨404, .error "Record not found"⟩
  | some r => ⟨200, .record (afterHook r)⟩

/-- Embeds `create`: `createOp` is `model.create` applied to the request
body. -/
def create {β ρ : Type} (createOp : β → ρ) (body : β) : Response ρ :=
  ⟨201, .record (createOp body)⟩

/-- Embeds `update`: looks the record up with `model.findByPk`, answers
404 when absent, otherwise runs `model.update(body, {where: {id}})` and
returns its raw result with status 200. -/
def update {β ρ υ : Type} (findByPk : String → Option ρ)
    (updateOp : β → String → υ) (id : String) (body : β) : Response υ :=
  match findByPk id with
  | none => ⟨404, .error "Record not found"⟩
  | some _ => ⟨200, .record (updateOp body id)⟩

/-! ### Record-store model for `destroy` and the `update` where-clause -/

/-- A raw record: a list of attribute-name/value pairs. -/
structure Row : Type where
  attrs : List (String × String)
  deriving DecidableEq, Repr

/-- Reads attribute `a` of a row. -/
def getAttr (r : Row) (a : String) : Option String :=
  (r.attrs.find? (fun p => p.1 = a)).map (fun p => p.2)

/-- A model handle: the name of the primary-key attribute, as declared
on the Sequelize model. -/
structure ModelDef : Type where
  primaryKey : String
  deriving DecidableEq, Repr

/-- Embeds `model.findByPk(id)` over a concrete row store: the first row
whose primary-key attribute equals `id`. -/
def findByPk (m : ModelDef) (rows : List Row) (id : String) : Option Row :=
  rows.find? (fun r => getAttr r m.primaryKey == some id)

/-- The rows matched by the literal `where: { id: req.params.id }`
clause used by `update` and `destroy`: rows whose attribute named `id`
equals the path parameter. -/
def whereIdMatches (rows : List Row) (id : String) : List Row :=
  rows.filter (fun r => getAttr r "id" == some id)

/-- Embeds `destroy`: deletes by the `where: {id}` clause with no
existence check, then answers `res.json({ id: req.params.id })` —
status 200 and the requested id, whatever the store contained. -/
def destroy (rows : List Row) (id : String) : List Row × Response Unit :=
  (rows.filter (fun r => !(getAttr r "id" == some id)), ⟨200, .idObj id⟩)

/-- Result of the `|| ""` coercion when it yields a string: `some` the
string, `none` when the coerced value is still not a plain string. -/
def coerced (v : JValue) : Option (List Char) :=
  match jsOrEmptyStr v with
  | .str s => some s
  | _ => none

end Crud

namespace Crud

/-! ### Basic lemmas about the middleware -/

theorem coerced_str (s : List Char) : coerced (.str s) = some s := by
  cases s <;> rfl

theorem appendHeaders_coerced (e a : JValue) :
    appendHeaders e a =
      match coerced e, coerced a with
      | none, _ => (e, a)
      | some s, none => (.str (normalize s), a)
      | some s, some t => (.str (normalize s), .str (normalize t)) := by
  rcases he : jsOrEmptyStr e with _ | s | n | l <;>
    rcases ha : jsOrEmptyStr a with _ | t | n' | l' <;>
      simp [appendHeaders, coerced, he, ha]

/-! ### Route-registration lemmas -/

theorem routeFor_invalid (resource : String) (a : String)
    (h : a ∉ actionTypeValues) :
    routeFor resource a = .error ("Unknown action type " ++ a) := by
  simp [actionTypeValues] at h
  obtain ⟨h1, h2, h3, h4, h5⟩ := h
  simp [routeFor, h1, h2, h3, h4, h5]

theorem registerRoutes_error (resource : String) (acts : List String)
    (h : ∃ a ∈ acts, a ∉ actionTypeValues) :
    ∃ msg, registerRoutes resource acts = .error msg := by
  induction acts with
  | nil => simp at h
  | cons a rest ih =>
    by_cases ha : a ∈ actionTypeValues
    · obtain ⟨b, hb, hbad⟩ := h
      rcases List.mem_cons.mp hb with rfl | hbrest
      · exact absurd ha hbad
      · obtain ⟨msg, hmsg⟩ := ih ⟨b, hbrest, hbad⟩
        refine ⟨msg, ?_⟩
        simp [actionTypeValues] at ha
        rcases ha with rfl | rfl | rfl | rfl | rfl <;>
          simp [registerRoutes, routeFor, hmsg, Bind.bind, Except.bind]
    · exact ⟨"Unknown action type " ++ a,
        by simp [registerRoutes, routeFor_invalid resource a ha, Bind.bind,
          Except.bind]⟩

/-! ### Claim theorems: route registration -/

/-- C1 (counterexample): calling the generator with `actionTypes = []`
registers no handlers at all — the claim predicts all five. -/
theorem crud_empty_counterexample :
    crud "/users" (some []) = .ok [] ∧ ([] : List Route).length ≠ 5 := by
  constructor
  · rfl
  · decide

/-- C1 (amended): with `actionTypes` unset the generator registers all
five handlers; with `actionTypes = []` (the empty array is truthy in
JavaScript, so the default is not applied) it registers none. -/
theorem crud_actionTypes_default (resource : String) :
    crud resource none = .ok
      [⟨"get", resource, "GET_LIST"⟩, ⟨"get", resource ++ "/:id", "GET_ONE"⟩,
        ⟨"post", resource, "CREATE"⟩, ⟨"put", resource ++ "/:id", "UPDATE"⟩,
        ⟨"delete", resource ++ "/:id", "DELETE"⟩]
    ∧ crud resource (some []) = .ok [] := by
  constructor <;> rfl

/-- C3: an `actionTypes` list containing a value outside the five
enumerated action types makes registration throw, and the caller never
receives a router: no list of routes is produced, not even for valid
action types listed before the unrecognized one. -/
theorem crud_unknown_action (resource : String) (acts : List String)
    (h : ∃ a ∈ acts, a ∉ actionTypeValues) :
    (∃ msg, crud resource (some acts) = .error msg)
    ∧ ∀ routes, crud resource (some acts) ≠ .ok routes := by
  obtain ⟨msg, hmsg⟩ := registerRoutes_error resource acts h
  have hc : crud resource (some acts) = .error msg := hmsg
  exact ⟨⟨msg, hc⟩, fun routes hok => by simp [hc] at hok⟩

/-- Witness for C3 at a list whose valid entry comes before the
unrecognized one. -/
theorem crud_unknown_action_witness :
    (∃ msg, crud "/r" (some ["GET_LIST", "FOO"]) = .error msg)
    ∧ ∀ routes, crud "/r" (some ["GET_LIST", "FOO"]) ≠ .ok routes :=
  crud_unknown_action "/r" ["GET_LIST", "FOO"] ⟨"FOO", by decide, by decide⟩

/-! ### Claim theorems: list handler -/

/-- C5: with a parsed `range=[from,to]` the list handler queries the
model at `offset = from` with `limit = to - from + 1`, and sets
`Content-Range` to `from-(from+returnedCount)/totalCount` where
`returnedCount` is the number of rows the model returned and
`totalCount` the model's count. -/
theorem getList_range {ρ α : Type} (db : FindQuery → Int × List ρ)
    (hook : List ρ → α) (f t : Int) (sort : Option (String × String))
    (filter : Option (List (String × String))) :
    (getList db hook (some (f, t)) sort filter).query.offset = f
    ∧ (getList db hook (some (f, t)) sort filter).query.limit = t - f + 1
    ∧ (getList db hook (some (f, t)) sort filter).contentRange =
        toString f ++ "-" ++
          toString (f +
            ((db (getList db hook (some (f, t)) sort filter).query).2.length : Int))
          ++ "/" ++ toString (db (getList db hook (some (f, t)) sort filter).query).1 :=
  ⟨rfl, rfl, rfl⟩

/-- C8: omitted `range`, `sort` and `filter` parameters behave exactly
like `[0,100]`, `["id","ASC"]` and the empty filter, and the issued
query is offset 0, limit 101, order by `id` ascending, no constraint. -/
theorem getList_defaults {ρ α : Type} (db : FindQuery → Int × List ρ)
    (hook : List ρ → α) :
    getList db hook none none none =
      getList db hook (some (0, 100)) (some ("id", "ASC")) (some [])
    ∧ (getList db hook none none none).query =
        ⟨0, 101, ("id", "ASC"), []⟩ :=
  ⟨rfl, rfl⟩

/-! ### Claim theorems: get-one, update, destroy -/

/-- C6: get-one and update answer 404 with body
`{"error":"Record not found"}` when the id matches no record, and
get-one answers 200 with the hook-transformed record when it does. -/
theorem getOne_update_notFound {ρ α β υ : Type}
    (find : String → Option ρ) (hook : ρ → α) (upd : β → String → υ)
    (body : β) (id : String) :
    (find id = none →
      getOne find hook id = ⟨404, .error "Record not found"⟩
      ∧ update find upd id body = ⟨404, .error "Record not found"⟩)
    ∧ ∀ r, find id = some r →
        getOne find hook id = ⟨200, .record (hook r)⟩ := by
  constructor
  · intro hnone
    constructor <;> simp [getOne, update, hnone]
  · intro r hsome
    simp [getOne, hsome]

/-- Witness for C6: a store with no records answers 404 on both
handlers, and a store holding `7` answers 200 with the hooked record. -/
theorem getOne_update_notFound_witness :
    (getOne (fun _ => (none : Option Nat)) (fun r => r + 1) "1" =
        ⟨404, .error "Record not found"⟩
      ∧ update (fun _ => (none : Option Nat)) (fun (b : Nat) _ => b) "1" 0 =
        ⟨404, .error "Record not found"⟩)
    ∧ getOne (fun _ => some 7) (fun r => r + 1) "2" = ⟨200, .record 8⟩ :=
  ⟨(getOne_update_notFound (fun _ => (none : Option Nat)) (fun r => r + 1)
      (fun (b : Nat) _ => b) 0 "1").1 rfl,
    (getOne_update_notFound (fun _ => some 7) (fun r => r + 1)
      (fun (b : Nat) _ => b) 0 "2").2 7 rfl⟩

/-- C7: the delete handler answers 200 with `{id: requested id}` for
every store, and its response does not depend on the store at all — in
particular no existence check is made. -/
theorem destroy_always_ok (rows : List Row) (id : String) :
    (destroy rows id).2 = ⟨200, .idObj id⟩
    ∧ ∀ rows' : List Row, (destroy rows' id).2 = (destroy rows id).2 :=
  ⟨rfl, fun _ => rfl⟩

/-! ### Claim theorems: header normalization, non-string values -/

/-- C2 (counterexample): with `Access-Control-Expose-Headers` holding a
number and `Access-Control-Allow-Headers` holding `""`, the middleware
returns early and leaves the allow header untouched, although the claim
says the other header is still processed (which would set it to
`", Content-Range"`). -/
theorem appendHeaders_nonstring_counterexample :
    appendHeaders (.num 5) (.str []) = (.num 5, .str [])
    ∧ (JValue.str [] : JValue) ≠ .str ", Content-Range".data := by
  constructor
  · rfl
  · decide

/-- C2 (amended): a non-string value (after the `|| ""` coercion) of the
first header aborts the middleware, leaving both headers unmodified;
only when the first header coerces to a string and the second does not
is the first still processed while the second is skipped. -/
theorem appendHeaders_nonstring (e a : JValue) :
    (coerced e = none → appendHeaders e a = (e, a))
    ∧ (∀ s, coerced e = some s → coerced a = none →
        appendHeaders e a = (.str (normalize s), a))
    ∧ (∀ s t, coerced e = some s → coerced a = some t →
        appendHeaders e a = (.str (normalize s), .str (normalize t))) := by
  refine ⟨fun hn => ?_, fun s hs hn => ?_, fun s t hs ht => ?_⟩ <;>
    rw [appendHeaders_coerced]
  · simp [hn]
  · simp [hs, hn]
  · simp [hs, ht]

/-- Witness for C2 (amended): a numeric first header stops everything; a
numeric second header leaves only the second unprocessed. -/
theorem appendHeaders_nonstring_witness :
    appendHeaders (.num 5) (.str "x".data) = (.num 5, .str "x".data)
    ∧ appendHeaders (.str "x".data) (.num 5) =
        (.str "x, Content-Range".data, .num 5) := by
  constructor
  · exact (appendHeaders_nonstring (.num 5) (.str "x".data)).1 rfl
  · have h := (appendHeaders_nonstring (.str "x".data) (.num 5)).2.1
      "x".data (coerced_str _) rfl
    rw [h]
    decide

/-- C9 (counterexample): with a non-string expose header (an array is
truthy, so the `|| ""` coercion keeps it) and an absent allow header,
the middleware returns early and the absent allow header is not set to
`", Content-Range"` as the claim requires for every request. -/
theorem appendHeaders_absent_counterexample :
    appendHeaders (.arr []) .undef = (.arr [], .undef)
    ∧ (JValue.undef : JValue) ≠ .str ", Content-Range".data := by
  constructor
  · rfl
  · decide

/-- C9 (amended): an absent or empty expose header (visited first) is
always set to `", Content-Range"` — a list whose first entry is the
empty string, not `"Content-Range"` alone; an absent or empty allow
header is so set only when the expose header's value coerces to a plain
string, and is left untouched when it does not. -/
theorem appendHeaders_absent_or_empty (e a : JValue) :
    ((e = .undef ∨ e = .str []) →
      (appendHeaders e a).1 = .str ", Content-Range".data)
    ∧ ((a = .undef ∨ a = .str []) → ∀ s, coerced e = some s →
        (appendHeaders e a).2 = .str ", Content-Range".data)
    ∧ ((a = .undef ∨ a = .str []) → coerced e = none →
        (appendHeaders e a).2 = a)
    ∧ ", Content-Range".data ≠ "Content-Range".data := by
  have hCR : normalize [] = ", Content-Range".data := by decide
  have hundef : coerced JValue.undef = some [] := rfl
  have hempty : coerced (JValue.str []) = some [] := rfl
  refine ⟨?_, ?_, ?_, by decide⟩
  · rintro (rfl | rfl) <;>
      rcases ha : coerced a with _ | t <;>
        rw [appendHeaders_coerced] <;> simp [hundef, hempty, ha, hCR]
  · rintro (rfl | rfl) s hs <;>
      rw [appendHeaders_coerced] <;> simp [hs, hundef, hempty, hCR]
  · intro _ hn
    rw [appendHeaders_coerced]
    simp [hn]

/-- Witness for C9 (amended): an absent expose header is set even next
to a numeric allow header; an absent allow header is set when the expose
header holds a string; an empty allow header survives untouched next to
an array-valued expose header. -/
theorem appendHeaders_absent_or_empty_witness :
    (appendHeaders .undef (.num 3)).1 = .str ", Content-Range".data
    ∧ (appendHeaders (.str "x".data) .undef).2 = .str ", Content-Range".data
    ∧ (appendHeaders (.arr []) (.str [])).2 = .str [] :=
  ⟨(appendHeaders_absent_or_empty .undef (.num 3)).1 (Or.inl rfl),
    (appendHeaders_absent_or_empty (.str "x".data) .undef).2.1 (Or.inl rfl)
      "x".data (coerced_str _),
    (appendHeaders_absent_or_empty (.arr []) (.str [])).2.2.1 (Or.inr rfl) rfl⟩

/-! ### Claim theorems: update's primary key versus `where: {id}` -/

/-- Under pairwise-distinct primary-key values, `find?` and `filter`
agree when both use the same key. -/
theorem findByPk_toList_eq_filter (m : ModelDef) (rows : List Row)
    (id : String) (hpk : m.primaryKey = "id")
    (huniq : rows.Pairwise (fun a b => getAttr a m.primaryKey ≠ getAttr b m.primaryKey)) :
    (findByPk m rows id).toList = whereIdMatches rows id := by
  induction rows with
  | nil => rfl
  | cons r rs ih =>
    rcases List.pairwise_cons.mp huniq with ⟨hr, hrs⟩
    by_cases hmatch : getAttr r m.primaryKey == some id
    · have hpkr : getAttr r m.primaryKey = some id := by
        simpa using hmatch
      have hnone : whereIdMatches rs id = [] := by
        apply List.filter_eq_nil_iff.mpr
        intro b hb
        have : getAttr b m.primaryKey ≠ some id := fun hEq =>
          hr b hb (hpkr.trans hEq.symm)
        simpa [hpk] using this
      simp [findByPk, whereIdMatches, List.find?, List.filter, hmatch,
        hpk ▸ hmatch, hnone]
      simp [whereIdMatches] at hnone
      simpa [hpk] using hnone
    · have ih' := ih hrs
      simp [findByPk, List.find?, hmatch] at ih' ⊢
      simp [whereIdMatches, List.filter, hpk ▸ hmatch]
      simpa [findByPk, whereIdMatches, hpk] using ih'

/-- C10: the update handler's existence check uses the model's primary
key while its `where` clause uses the attribute literally named `id`;
with primary key `id` (and distinct key values) both designate the same
record, and with any other primary-key name there is a store where the
existence check succeeds yet the `where` clause matches nothing. -/
theorem update_pk_vs_where (m : ModelDef) (rows : List Row) (id : String)
    (hpk : m.primaryKey = "id")
    (huniq : rows.Pairwise (fun a b => getAttr a m.primaryKey ≠ getAttr b m.primaryKey)) :
    (findByPk m rows id).toList = whereIdMatches rows id
    ∧ ∃ (m' : ModelDef) (rows' : List Row) (id' : String),
        m'.primaryKey ≠ "id" ∧ (findByPk m' rows' id').isSome = true
        ∧ whereIdMatches rows' id' = [] := by
  refine ⟨findByPk_toList_eq_filter m rows id hpk huniq,
    ⟨⟨"key"⟩, [⟨[("key", "1"), ("id", "2")]⟩], "1", ?_, ?_, ?_⟩⟩ <;> decide

/-- Witness for C10 at a one-row store keyed by `id`. -/
theorem update_pk_vs_where_witness :
    (findByPk ⟨"id"⟩ [⟨[("id", "1")]⟩] "1").toList =
      whereIdMatches [⟨[("id", "1")]⟩] "1" :=
  (update_pk_vs_where ⟨"id"⟩ [⟨[("id", "1")]⟩] "1" rfl (by decide)).1

/-! ### Split/trim/join algebra for the idempotence of `appendHeaders` -/

theorem splitOnComma_ne_nil (l : List Char) : splitOnComma l ≠ [] := by
  cases l with
  | nil => simp [splitOnComma]
  | cons c cs =>
    simp only [splitOnComma]
    split
    · simp
    · split <;> simp

theorem splitOnComma_no_comma (l : List Char) (h : ',' ∉ l) :
    splitOnComma l = [l] := by
  induction l with
  | nil => rfl
  | cons c cs ih =>
    have hc : ¬(c = ',') := fun hEq => h (hEq ▸ List.mem_cons_self c cs)
    have hcs : ',' ∉ cs := fun hm => h (List.mem_cons_of_mem c hm)
    simp only [splitOnComma, if_neg hc, ih hcs]

theorem not_comma_mem_splitOnComma (l : List Char) :
    ∀ e ∈ splitOnComma l, ',' ∉ e := by
  induction l with
  | nil =>
    intro e he
    simp [splitOnComma] at he
    simp [he]
  | cons c cs ih =>
    intro e he
    by_cases hc : c = ','
    · subst hc
      simp only [splitOnComma, if_pos rfl] at he
      rcases List.mem_cons.mp he with rfl | he'
      · simp
      · exact ih e he'
    · rcases hsplit : splitOnComma cs with _ | ⟨h, t⟩
      · exact absurd hsplit (splitOnComma_ne_nil cs)
      · simp only [splitOnComma, if_neg hc, hsplit] at he
        have hh : h ∈ splitOnComma cs := by
          rw [hsplit]; exact List.mem_cons_self h t
        rcases List.mem_cons.mp he with rfl | he'
        · intro hmem
          rcases List.mem_cons.mp hmem with hEq | hmem'
          · exact hc hEq.symm
          · exact ih h hh hmem'
        · have ht : e ∈ splitOnComma cs := by
            rw [hsplit]; exact List.mem_cons_of_mem h he'
          exact ih e ht

theorem splitOnComma_append_comma (a rest : List Char) (h : ',' ∉ a) :
    splitOnComma (a ++ ',' :: rest) = a :: splitOnComma rest := by
  induction a with
  | nil => simp [splitOnComma]
  | cons c a' ih =>
    have hc : ¬(c = ',') := fun hEq => h (hEq ▸ List.mem_cons_self _ _)
    have ha' : ',' ∉ a' := fun hm => h (List.mem_cons_of_mem _ hm)
    simp only [List.cons_append, splitOnComma, List.append_eq, if_neg hc,
      ih ha']

theorem dropTrailWS_subset (l : List Char) : dropTrailWS l ⊆ l := by
  induction l with
  | nil => simp [dropTrailWS]
  | cons c cs ih =>
    rcases hr : dropTrailWS cs with _ | ⟨x, xs⟩
    · simp only [dropTrailWS, hr]
      split
      · simp
      · simp
    · simp only [dropTrailWS, hr]
      rw [hr] at ih
      exact List.cons_subset_cons c ih

theorem dropWhileWS_subset (l : List Char) : l.dropWhile isWS ⊆ l := by
  induction l with
  | nil => simp
  | cons c cs ih =>
    by_cases hc : isWS c
    · rw [List.dropWhile_cons_of_pos hc]
      exact fun x hx => List.mem_cons_of_mem _ (ih hx)
    · rw [List.dropWhile_cons_of_neg hc]
      exact fun _ hx => hx

theorem trimChars_subset (l : List Char) : trimChars l ⊆ l := fun _ hx =>
  dropWhileWS_subset l (dropTrailWS_subset _ hx)

theorem dropWhileWS_head_false :
    ∀ (l : List Char) (c : Char) (cs : List Char),
      l.dropWhile isWS = c :: cs → isWS c = false := by
  intro l
  induction l with
  | nil => intro c cs h; simp at h
  | cons x xs ih =>
    intro c cs h
    by_cases hx : isWS x
    · rw [List.dropWhile_cons_of_pos hx] at h
      exact ih c cs h
    · rw [List.dropWhile_cons_of_neg hx] at h
      cases h
      simpa using hx

theorem dropTrailWS_head (c : Char) (cs : List Char) :
    dropTrailWS (c :: cs) = [] ∨ ∃ r, dropTrailWS (c :: cs) = c :: r := by
  rcases hr : dropTrailWS cs with _ | ⟨x, xs⟩ <;> simp only [dropTrailWS, hr]
  · split
    · exact Or.inl rfl
    · exact Or.inr ⟨[], rfl⟩
  · exact Or.inr ⟨x :: xs, rfl⟩

theorem trimChars_no_leading (l : List Char) :
    (trimChars l).dropWhile isWS = trimChars l := by
  unfold trimChars
  rcases hd : l.dropWhile isWS with _ | ⟨c, cs⟩
  · simp [dropTrailWS]
  · have hc : isWS c = false := dropWhileWS_head_false l c cs hd
    rcases dropTrailWS_head c cs with h0 | ⟨r, hr⟩
    · rw [h0]; rfl
    · rw [hr, List.dropWhile_cons_of_neg (by simp [hc])]

theorem dropTrailWS_idem (l : List Char) :
    dropTrailWS (dropTrailWS l) = dropTrailWS l := by
  induction l with
  | nil => rfl
  | cons c cs ih =>
    rcases hr : dropTrailWS cs with _ | ⟨x, xs⟩
    · simp only [dropTrailWS, hr]
      by_cases hc : isWS c
      · simp [hc, dropTrailWS]
      · simp [hc, dropTrailWS]
    · rw [hr] at ih
      have hout : dropTrailWS (c :: cs) = c :: x :: xs := by
        rw [dropTrailWS, hr]
      rw [hout, dropTrailWS, ih]

theorem trimChars_idem (l : List Char) :
    trimChars (trimChars l) = trimChars l := by
  have h1 := trimChars_no_leading l
  have h2 : trimChars (trimChars l) =
      dropTrailWS ((trimChars l).dropWhile isWS) := rfl
  rw [h2, h1]
  have h3 : trimChars l = dropTrailWS (l.dropWhile isWS) := rfl
  rw [h3, dropTrailWS_idem]

theorem trimChars_ws_cons {c : Char} (h : isWS c = true) (l : List Char) :
    trimChars (c :: l) = trimChars l := by
  unfold trimChars
  rw [List.dropWhile_cons_of_pos h]

theorem map_trim_split_join :
    ∀ L : List (List Char), (∀ e ∈ L, ',' ∉ e ∧ trimChars e = e) →
      L ≠ [] → (splitOnComma (joinCommaSpace L)).map trimChars = L := by
  intro L
  induction L with
  | nil => intro _ hne; exact absurd rfl hne
  | cons x xs ih =>
    intro hL _
    cases xs with
    | nil =>
      have hx := hL x (by simp)
      simp only [joinCommaSpace]
      rw [splitOnComma_no_comma x hx.1]
      simp [hx.2]
    | cons y ys =>
      have hx := hL x (by simp)
      have hys : ∀ e ∈ y :: ys, ',' ∉ e ∧ trimChars e = e :=
        fun e he => hL e (List.mem_cons_of_mem _ he)
      have hjoin : joinCommaSpace (x :: y :: ys) =
          x ++ ',' :: ' ' :: joinCommaSpace (y :: ys) := rfl
      rw [hjoin, splitOnComma_append_comma x _ hx.1]
      rcases hsplit : splitOnComma (joinCommaSpace (y :: ys)) with _ | ⟨h, t⟩
      · exact absurd hsplit (splitOnComma_ne_nil _)
      · have hcons : splitOnComma (' ' :: joinCommaSpace (y :: ys)) =
            (' ' :: h) :: t := by
          simp only [splitOnComma]
          rw [if_neg (by decide), hsplit]
        rw [hcons]
        simp only [List.map_cons]
        rw [hx.2, trimChars_ws_cons (by decide)]
        have hrec := ih hys (by simp)
        rw [hsplit] at hrec
        simp only [List.map_cons] at hrec
        rw [hrec]

theorem entriesOf_spec (s : List Char) :
    ∀ e ∈ entriesOf s, ',' ∉ e ∧ trimChars e = e := by
  intro e he
  simp only [entriesOf, List.mem_map] at he
  obtain ⟨e', he', rfl⟩ := he
  exact ⟨fun hm => not_comma_mem_splitOnComma s e' he' (trimChars_subset e' hm),
    trimChars_idem e'⟩

theorem crChars_spec : ',' ∉ crChars ∧ trimChars crChars = crChars := by
  decide

theorem withCR_ne_nil (es : List (List Char)) : withCR es ≠ [] := by
  unfold withCR
  split
  · rename_i hmem
    exact List.ne_nil_of_mem hmem
  · simp

theorem withCR_spec (s : List Char) :
    ∀ e ∈ withCR (entriesOf s), ',' ∉ e ∧ trimChars e = e := by
  intro e he
  unfold withCR at he
  split at he
  · exact entriesOf_spec s e he
  · rcases List.mem_append.mp he with h1 | h2
    · exact entriesOf_spec s e h1
    · simp at h2
      subst h2
      exact crChars_spec

theorem entriesOf_normalize (s : List Char) :
    entriesOf (normalize s) = withCR (entriesOf s) :=
  map_trim_split_join (withCR (entriesOf s)) (withCR_spec s) (withCR_ne_nil _)

theorem cr_mem_withCR (es : List (List Char)) : crChars ∈ withCR es := by
  unfold withCR
  split
  · assumption
  · exact List.mem_append_right _ (by simp)

theorem withCR_of_mem {es : List (List Char)} (h : crChars ∈ es) :
    withCR es = es := by
  simp [withCR, h]

theorem subset_withCR (es : List (List Char)) : es ⊆ withCR es := by
  unfold withCR
  split
  · exact fun x hx => hx
  · exact List.subset_append_left _ _

theorem normalize_idem (s : List Char) :
    normalize (normalize s) = normalize s := by
  have h1 : normalize (normalize s) =
      joinCommaSpace (withCR (entriesOf (normalize s))) := rfl
  rw [h1, entriesOf_normalize, withCR_of_mem (cr_mem_withCR _)]
  rfl

theorem appendHeaders_str_str (u v : List Char) :
    appendHeaders (.str u) (.str v) =
      (.str (normalize u), .str (normalize v)) := by
  rw [appendHeaders_coerced]
  simp [coerced_str]

/-! ### Claim theorem: idempotence and preservation -/

/-- C4: on string-valued headers the middleware is idempotent, every
pre-existing comma-separated entry survives (as its trimmed form) into
the output entry list, and `Content-Range` is appended exactly when no
existing trimmed entry equals it. -/
theorem appendHeaders_idempotent (s t : List Char) :
    appendHeadersPair (appendHeadersPair (.str s, .str t)) =
      appendHeadersPair (.str s, .str t)
    ∧ (∀ e ∈ splitOnComma s, trimChars e ∈ entriesOf (normalize s))
    ∧ entriesOf (normalize s) =
        (if crChars ∈ entriesOf s then entriesOf s
          else entriesOf s ++ [crChars]) := by
  refine ⟨?_, ?_, ?_⟩
  · simp only [appendHeadersPair, appendHeaders_str_str, normalize_idem]
  · intro e he
    have hmem : trimChars e ∈ entriesOf s := List.mem_map_of_mem _ he
    rw [entriesOf_normalize]
    exact subset_withCR _ hmem
  · rw [entriesOf_normalize]
    rfl

/-- Witness for C4 at the headers `" a ,b"` and `""`: the middleware is
idempotent there and the trimmed entry `"a"` of the input survives. -/
theorem appendHeaders_idempotent_witness :
    appendHeadersPair (appendHeadersPair (.str " a ,b".data, .str [])) =
      appendHeadersPair (.str " a ,b".data, .str [])
    ∧ trimChars " a ".data ∈ entriesOf (normalize " a ,b".data) :=
  ⟨(appendHeaders_idempotent " a ,b".data []).1,
    (appendHeaders_idempotent " a ,b".data []).2.1 " a ".data (by decide)⟩

end Crud
